import Mathlib

/-!
Verification development for the `Linksimulator` repository
(`src/min_queue.c`, `src/min_queue.h`, `src/link_sim.c`).

The C sources are shallowly embedded below.  Dynamic arrays become
`List`s, the heap's slot array is a `List α` whose length is the queue
size, machine-unsigned arithmetic is `Nat` with explicit `% 2^32`
where the C relies on wraparound, timestamps are pairs of `Int`
(`time_t`/`suseconds_t` are signed), and the C library's `rand()` is an
arbitrary stream `r : Nat → Nat` consumed at an explicit cursor `k`
(each `rand()` call reads `r k` and advances the cursor).  While loops
whose variant is an array index are written with an explicit fuel
argument that is always instantiated so generously that the fuel never
runs out before the loop's own exit condition holds.
-/

/-! ## Constants from link_sim.c and the C environment -/

/-- MIN_PKT_LEN from link_sim.c. -/
def MIN_PKT_LEN : Nat := 12

/-- MAX_PKT_LEN from link_sim.c. -/
def MAX_PKT_LEN : Nat := 528

/-- EXIT_SUCCESS. -/
def EXIT_SUCCESS : Nat := 0

/-- EXIT_FAILURE. -/
def EXIT_FAILURE : Nat := 1

/-- errno value EWOULDBLOCK (Linux). -/
def EWOULDBLOCK : Nat := 11

/-- errno value EAGAIN (Linux, same numeric value as EWOULDBLOCK). -/
def EAGAIN : Nat := 11

/-- errno value EINTR. -/
def EINTR : Nat := 4

/-- LINK_FORWARD from link_sim.c. -/
def LINK_FORWARD : Nat := 1

/-- LINK_REVERSE from link_sim.c. -/
def LINK_REVERSE : Nat := 2

/-- LINK_BOTH_WAYS from link_sim.c. -/
def LINK_BOTH_WAYS : Nat := 3

/-- SAME_DIRECTION(x, y) is the bitwise and x & y. -/
def SAME_DIRECTION (x y : Nat) : Nat := x &&& y

/-- 2^32, the modulus of C `unsigned int` arithmetic. -/
def U32 : Nat := 4294967296

/-- RAND_PERCENT: `rand() % 101` applied to one raw draw `x` of the stream. -/
def randPercent (x : Nat) : Nat := x % 101

/-! ## struct timeval and its helpers (link_sim.c) -/

/-- struct timeval; both fields are signed in C. -/
structure Timeval where
  tv_sec : Int
  tv_usec : Int
deriving DecidableEq

/-- timeval_cmp from link_sim.c: returns left > right. -/
def timeval_cmp (left right : Timeval) : Bool :=
  if left.tv_sec = right.tv_sec then decide (right.tv_usec < left.tv_usec)
  else decide (right.tv_sec < left.tv_sec)

/-- timeval_diff from link_sim.c.  The borrow of 1,000,000 usec happens
only when the already-decremented seconds field is non-zero, exactly as
in the C (`if (--c->tv_sec) c->tv_usec += 1000000;`). -/
def timeval_diff (a b : Timeval) : Timeval :=
  let sec := a.tv_sec - b.tv_sec
  let usec := a.tv_usec - b.tv_usec
  if usec < 0 then
    let sec2 := sec - 1
    if sec2 ≠ 0 then { tv_sec := sec2, tv_usec := usec + 1000000 }
    else { tv_sec := sec2, tv_usec := usec }
  else { tv_sec := sec, tv_usec := usec }

/-- The value of a timestamp in microseconds (reference semantics of an
exact difference, used to state what `a - b` means). -/
def timevalMicros (t : Timeval) : Int := t.tv_sec * 1000000 + t.tv_usec

/-! ## The min-queue (min_queue.c)

The queue state is the array of occupied slots `e : List α`
(`q->e[0 .. q->size-1]`); `cmp` is the caller-supplied greater-than
comparator, and `d` is an arbitrary default returned by out-of-bounds
array reads (all reads the code performs are in bounds). -/

/-- Read slot `i` of the array (C `q->e[i]`). -/
def getE {α : Type} (d : α) (e : List α) (i : Nat) : α := e.getD i d

/-- has_child from min_queue.c: index of the smallest child of `i`, or 0
when there is none.  `LCHILD(x)` is `x << 1 = 2*x` and `RCHILD(x)` is
`2*x + 1` in the C. -/
def has_child {α : Type} (cmp : α → α → Bool) (d : α) (e : List α) (i : Nat) : Nat :=
  let left := 2 * i
  if e.length ≤ left then 0
  else
    let right := left + 1
    if right < e.length ∧ cmp (getE d e left) (getE d e right) = true then right
    else left

/-- The element swap performed in minq_pop's sift-down loop. -/
def swapL {α : Type} (d : α) (e : List α) (i j : Nat) : List α :=
  (e.set i (getE d e j)).set j (getE d e i)

/-- The sift-down loop of minq_pop.  The fuel only bounds the iteration
count; it is always called with enough fuel (`e.length ≤ fuel + current`
makes the fuel-exhausted branch unreachable before the loop exits). -/
def siftDown {α : Type} (cmp : α → α → Bool) (d : α) : Nat → List α → Nat → List α
  | 0, e, _ => e
  | fuel + 1, e, current =>
    let mc := has_child cmp d e current
    if mc ≠ 0 ∧ cmp (getE d e current) (getE d e mc) = true then
      siftDown cmp d fuel (swapL d e current mc) mc
    else e

/-- minq_empty from min_queue.c. -/
def minq_empty {α : Type} (e : List α) : Bool := e.isEmpty

/-- minq_pop from min_queue.c: no-op on empty, otherwise move the last
element to the root (`q->e[0] = q->e[--q->size]`) and sift down. -/
def minq_pop {α : Type} (cmp : α → α → Bool) (d : α) (e : List α) : List α :=
  if minq_empty e then e
  else siftDown cmp d e.length ((e.dropLast).set 0 (getE d e (e.length - 1))) 0

/-- minq_peek from min_queue.c: NULL (none) on empty, else the root. -/
def minq_peek {α : Type} (e : List α) : Option α :=
  if minq_empty e then none else e.head?

/-- minq_size from min_queue.c. -/
def minq_size {α : Type} (e : List α) : Nat := e.length

/-- The sift-up loop of minq_push (`while (i && q->cmp(q->e[parent], v))`
with `parent = i / 2` recomputed each round).  Fuel as in `siftDown`;
it is called with `fuel = i`, which never runs out since `i` at least
halves each round. -/
def siftUp {α : Type} (cmp : α → α → Bool) (d : α) : Nat → List α → α → Nat → List α
  | 0, e, v, i => e.set i v
  | fuel + 1, e, v, i =>
    if i ≠ 0 ∧ cmp (getE d e (i / 2)) v = true then
      siftUp cmp d fuel (e.set i (getE d e (i / 2))) v (i / 2)
    else e.set i v

/-- minq_push from min_queue.c (the realloc bookkeeping has no
observable effect on the slot contents and is not represented): insert
at index `size`, then sift up. -/
def minq_push {α : Type} (cmp : α → α → Bool) (d : α) (e : List α) (v : α) : List α :=
  siftUp cmp d e.length (e ++ [v]) v e.length

/-- One queue operation of the minq API. -/
inductive MinqOp (α : Type) where
  | push (v : α)
  | pop
deriving DecidableEq

/-- The queue contents after a sequence of push/pop operations starting
from the freshly created (empty) queue. -/
def applyOps {α : Type} (cmp : α → α → Bool) (d : α) (ops : List (MinqOp α)) : List α :=
  ops.foldl
    (fun e op =>
      match op with
      | MinqOp.push v => minq_push cmp d e v
      | MinqOp.pop => minq_pop cmp d e)
    []

/-- Repeatedly read the root and pop, until the queue is empty
(the sequence of successive pops).  Fuel is the queue size. -/
def popAll {α : Type} (cmp : α → α → Bool) (d : α) : Nat → List α → List α
  | 0, _ => []
  | fuel + 1, e =>
    match minq_peek e with
    | none => []
    | some r => r :: popAll cmp d fuel (minq_pop cmp d e)

/-- `popAll` with exactly enough fuel to drain the queue. -/
def popAllL {α : Type} (cmp : α → α → Bool) (d : α) (e : List α) : List α :=
  popAll cmp d e.length e

/-- A strict total greater-than comparator obtained from a linear
order: `cmp a b` is non-zero exactly when `a > b`. -/
def gtCmp (α : Type) [LinearOrder α] : α → α → Bool := fun a b => decide (b < a)

/-- The heap invariant of min_queue.c, for a greater-than comparator
coming from a linear order: every node is ≤ its children, where the
parent of node `j ≥ 1` is `j / 2` (`PARENT(x) = x >> 1`). -/
def heapInv {α : Type} [LinearOrder α] (d : α) (e : List α) : Prop :=
  ∀ j, 0 < j → j < e.length → getE d e (j / 2) ≤ getE d e j

/-! ## Addresses, sends, and the egress writer (link_sim.c) -/

/-- struct sockaddr_in6, reduced to the fields the program compares and
copies: the 16 address bytes and the port. -/
structure Sockaddr6 where
  sin6_addr : List Nat
  sin6_port : Nat
deriving DecidableEq

/-- sockaddr_cmp from link_sim.c: 1 (true) iff a != b, comparing the
address bytes and then the port. -/
def sockaddr_cmp (a b : Sockaddr6) : Bool :=
  decide (a.sin6_addr ≠ b.sin6_addr) || decide (a.sin6_port ≠ b.sin6_port)

/-- The outcome of one sendto call: the value it returned and the errno
it left behind. -/
structure SendAttempt where
  nsent : Int
  errno : Nat
deriving DecidableEq

/-- write_out from link_sim.c reduced to its return value: EXIT_SUCCESS
iff sendto returned exactly `len`. -/
def write_out (len : Nat) (att : SendAttempt) : Nat :=
  if att.nsent = (len : Int) then EXIT_SUCCESS else EXIT_FAILURE

/-- The transient-errno test of deliver_delayed_pkt:
`errno == EWOULDBLOCK || errno == EINTR || errno == EAGAIN`. -/
def transient_errno (e : Nat) : Bool :=
  decide (e = EWOULDBLOCK) || decide (e = EINTR) || decide (e = EAGAIN)

/-! ## The impairment pipeline (simulate_link in link_sim.c) -/

/-- The configuration globals of link_sim.c that the pipeline and
classifier read. -/
structure Config where
  delay : Nat
  jitter : Nat
  err_rate : Nat
  cut_rate : Nat
  loss_rate : Nat
  link_direction : Nat
deriving DecidableEq

/-- struct pkt_slot from link_sim.c. -/
structure PktSlot where
  ts : Timeval
  direction : Nat
  size : Nat
  buf : List Nat
deriving DecidableEq

/-- pkt_slot_cmp from link_sim.c: compare slots by expiration date. -/
def pkt_slot_cmp (a b : PktSlot) : Bool := timeval_cmp a.ts b.ts

/-- Default slot used for out-of-bounds reads of the slot array
(never actually read). -/
def defaultSlot : PktSlot := { ts := ⟨0, 0⟩, direction := 0, size := 0, buf := [] }

/-- What simulate_link did with a packet. -/
inductive LinkOutcome where
  | dropped
  | sent (buf : List Nat) (dir : Nat)
  | sendFailed
  | queued (slot : PktSlot) (applied : Nat)
deriving DecidableEq

/-- Result of simulate_link: the C return code, the observable outcome,
and the rand() cursor after the call. -/
structure SimResult where
  code : Nat
  out : LinkOutcome
  k : Nat
deriving DecidableEq

/-- The payload a LinkOutcome delivers (now or later), if any. -/
def outPayload : LinkOutcome → Option (List Nat)
  | LinkOutcome.sent buf _ => some buf
  | LinkOutcome.queued slot _ => some slot.buf
  | _ => none

/-- Truncation: `len = MIN_PKT_LEN; buf[0] |= 0x20`. -/
def truncateMark (buf : List Nat) : List Nat :=
  (buf.take MIN_PKT_LEN).set 0 ((buf.getD 0 0) ||| 32)

/-- `~b` stored back into an unsigned byte. -/
def corruptByte (b : Nat) : Nat := 255 - b % 256

/-- Corruption: `buf[idx] = ~buf[idx]`. -/
def corruptPkt (buf : List Nat) (idx : Nat) : List Nat :=
  buf.set idx (corruptByte (buf.getD idx 0))

/-- The loss decision `loss_rate && RAND_PERCENT < loss_rate` on the
draw at cursor `k`. -/
def loss_fires (cfg : Config) (r : Nat → Nat) (k : Nat) : Bool :=
  decide (cfg.loss_rate ≠ 0) && decide (randPercent (r k) < cfg.loss_rate)

/-- Cursor after the loss decision (a draw is consumed iff
`loss_rate` is non-zero, short-circuit of `&&`). -/
def kAfterLoss (cfg : Config) (k : Nat) : Nat :=
  if cfg.loss_rate ≠ 0 then k + 1 else k

/-- The percentage part of the cut decision
(`cut_rate && RAND_PERCENT < cut_rate`). -/
def cut_draw_hit (cfg : Config) (r : Nat → Nat) (k : Nat) : Bool :=
  decide (cfg.cut_rate ≠ 0) && decide (randPercent (r (kAfterLoss cfg k)) < cfg.cut_rate)

/-- The full cut decision, including the eligibility test
`len > MIN_PKT_LEN`. -/
def cut_fires (cfg : Config) (buf : List Nat) (r : Nat → Nat) (k : Nat) : Bool :=
  cut_draw_hit cfg r k && decide (MIN_PKT_LEN < buf.length)

/-- Cursor after the cut decision (a draw is consumed iff `cut_rate` is
non-zero, even when the packet is too short to be cut). -/
def kAfterCut (cfg : Config) (k : Nat) : Nat :=
  if cfg.cut_rate ≠ 0 then kAfterLoss cfg k + 1 else kAfterLoss cfg k

/-- The corruption decision `err_rate && RAND_PERCENT < err_rate`
(only ever evaluated when the cut branch was not taken). -/
def err_draw_hit (cfg : Config) (r : Nat → Nat) (k : Nat) : Bool :=
  decide (cfg.err_rate ≠ 0) && decide (randPercent (r (kAfterCut cfg k)) < cfg.err_rate)

/-- Cursor after the corruption percentage draw. -/
def kAfterErrPct (cfg : Config) (k : Nat) : Nat :=
  if cfg.err_rate ≠ 0 then kAfterCut cfg k + 1 else kAfterCut cfg k

/-- The corrupted byte index `rand() % len`. -/
def corrupt_idx (cfg : Config) (buf : List Nat) (r : Nat → Nat) (k : Nat) : Nat :=
  r (kAfterErrPct cfg k) % buf.length

/-- The jittered delay:
`RAND_PERCENT > 49 ? delay + rand() % jitter : delay - rand() % jitter`
in C unsigned-int arithmetic (both sides reduced mod 2^32; the
subtraction is the wrapping unsigned subtraction). -/
def jitter_draw (cfg : Config) (r : Nat → Nat) (k : Nat) : Nat :=
  if randPercent (r k) > 49 then (cfg.delay + r (k + 1) % cfg.jitter) % U32
  else (cfg.delay + (U32 - r (k + 1) % cfg.jitter % U32)) % U32

/-- The delay actually applied: the jittered (or plain) delay, reduced
`applied %= 10000`. -/
def applied_delay (cfg : Config) (r : Nat → Nat) (k : Nat) : Nat :=
  (if cfg.jitter ≠ 0 then jitter_draw cfg r k else cfg.delay) % 10000

/-- The mathematical value `delay ± (rand mod jitter)` with truncated
natural subtraction, i.e. the spec's reading of the jitter formula when
no wraparound occurs. -/
def appliedSpecValue (cfg : Config) (r : Nat → Nat) (k : Nat) : Nat :=
  if randPercent (r k) > 49 then cfg.delay + r (k + 1) % cfg.jitter
  else cfg.delay - r (k + 1) % cfg.jitter

/-- The tail of simulate_link after the loss/cut/corruption phase:
either defer the (possibly altered) packet by `applied_delay`
milliseconds, or send it immediately through write_out, treating any
write_out failure as EXIT_FAILURE. -/
def afterImpair (cfg : Config) (now : Timeval) (buf : List Nat) (direction : Nat)
    (r : Nat → Nat) (k : Nat) (att : SendAttempt) : SimResult :=
  if cfg.delay ≠ 0 then
    let applied := applied_delay cfg r k
    let k2 := if cfg.jitter ≠ 0 then k + 2 else k
    { code := EXIT_SUCCESS,
      out := LinkOutcome.queued
        { ts := { tv_sec := now.tv_sec + Int.ofNat (applied / 1000),
                  tv_usec := now.tv_usec + Int.ofNat ((applied % 1000) * 1000) },
          direction := direction, size := buf.length, buf := buf } applied,
      k := k2 }
  else if write_out buf.length att = EXIT_SUCCESS then
    { code := EXIT_SUCCESS, out := LinkOutcome.sent buf direction, k := k }
  else
    { code := EXIT_FAILURE, out := LinkOutcome.sendFailed, k := k }

/-- simulate_link from link_sim.c. -/
def simulate_link (cfg : Config) (now : Timeval) (buf : List Nat) (direction : Nat)
    (r : Nat → Nat) (k : Nat) (att : SendAttempt) : SimResult :=
  if loss_fires cfg r k then
    { code := EXIT_SUCCESS, out := LinkOutcome.dropped, k := kAfterLoss cfg k }
  else if cut_fires cfg buf r k then
    afterImpair cfg now (truncateMark buf) direction r (kAfterCut cfg k) att
  else if err_draw_hit cfg r k then
    afterImpair cfg now (corruptPkt buf (corrupt_idx cfg buf r k)) direction r
      (kAfterErrPct cfg k + 1) att
  else
    afterImpair cfg now buf direction r (kAfterErrPct cfg k) att

/-! ## The ingress classifier (process_incoming_pkt in link_sim.c) -/

/-- The mutable classifier state: `has_source_addr` and `src_addr`. -/
structure LinkState where
  has_source_addr : Bool
  src_addr : Sockaddr6
deriving DecidableEq

/-- The learning step: on the first accepted datagram copy the sender
into `src_addr`. -/
def learn (st : LinkState) (fromA : Sockaddr6) : LinkState :=
  if st.has_source_addr then st
  else { has_source_addr := true, src_addr := fromA }

/-- The two successive direction assignments of process_incoming_pkt:
`direction = 0; if (from == dest) direction = LINK_REVERSE;
if (from == src) direction = LINK_FORWARD;`. -/
def compute_direction (dest src fromA : Sockaddr6) : Nat :=
  let d0 := 0
  let d1 := if sockaddr_cmp fromA dest = false then LINK_REVERSE else d0
  if sockaddr_cmp fromA src = false then LINK_FORWARD else d1

/-- What process_incoming_pkt did with a datagram. -/
inductive ProcOutcome where
  | malformed
  | alien
  | relayed (buf : List Nat) (dir : Nat)
  | relayFailed (dir : Nat)
  | simulated (res : SimResult) (dir : Nat)
deriving DecidableEq

/-- Result of process_incoming_pkt: return code, new classifier state,
observable outcome, and the rand() cursor after the call. -/
structure ProcResult where
  code : Nat
  st : LinkState
  out : ProcOutcome
  k : Nat
deriving DecidableEq

/-- process_incoming_pkt from link_sim.c, after a successful recvfrom
of `buf` from `fromA`: length check, address learning, direction
computation, alien drop, verbatim relay of the unimpaired direction,
or hand-off to simulate_link. -/
def process_incoming_pkt (cfg : Config) (dest : Sockaddr6) (st : LinkState)
    (fromA : Sockaddr6) (buf : List Nat) (now : Timeval)
    (r : Nat → Nat) (k : Nat) (att : SendAttempt) : ProcResult :=
  if buf.length < MIN_PKT_LEN then
    { code := EXIT_SUCCESS, st := st, out := ProcOutcome.malformed, k := k }
  else
    let st1 := learn st fromA
    let direction := compute_direction dest st1.src_addr fromA
    if direction = 0 then
      { code := EXIT_SUCCESS, st := st1, out := ProcOutcome.alien, k := k }
    else if SAME_DIRECTION direction cfg.link_direction = 0 then
      if write_out buf.length att = EXIT_SUCCESS then
        { code := EXIT_SUCCESS, st := st1, out := ProcOutcome.relayed buf direction, k := k }
      else
        { code := EXIT_FAILURE, st := st1, out := ProcOutcome.relayFailed direction, k := k }
    else
      let s := simulate_link cfg now buf direction r k att
      { code := s.code, st := st1, out := ProcOutcome.simulated s direction, k := s.k }

/-! ## Delayed delivery (deliver_delayed_pkt in link_sim.c) -/

/-- deliver_delayed_pkt from link_sim.c: while the queue head has
expired, write it out; a failed write returns EXIT_SUCCESS when errno
is transient (retry later) and EXIT_FAILURE otherwise; a successful
write pops and continues.  `atts i` is the outcome of the i-th sendto
of this call; the function returns (code, remaining queue, sends
consumed).  Fuel as before: one pop per iteration, so the initial queue
length suffices. -/
def deliver_delayed_pkt (atts : Nat → SendAttempt) :
    Nat → Nat → List PktSlot → Timeval → Nat × List PktSlot × Nat
  | 0, i, q, _ => (EXIT_SUCCESS, q, i)
  | fuel + 1, i, q, lc =>
    match minq_peek q with
    | none => (EXIT_SUCCESS, q, i)
    | some p =>
      if timeval_cmp lc p.ts then
        if write_out p.size (atts i) = EXIT_SUCCESS then
          deliver_delayed_pkt atts fuel (i + 1) (minq_pop pkt_slot_cmp defaultSlot q) lc
        else if transient_errno (atts i).errno then (EXIT_SUCCESS, q, i)
        else (EXIT_FAILURE, q, i)
      else (EXIT_SUCCESS, q, i)

/-- deliver_delayed_pkt with enough fuel to drain the whole queue. -/
def deliver_run (atts : Nat → SendAttempt) (i : Nat) (q : List PktSlot)
    (lc : Timeval) : Nat × List PktSlot × Nat :=
  deliver_delayed_pkt atts q.length i q lc

/-! ## Concrete fixtures used by counterexamples and witnesses -/

/-- A 12-byte all-zero packet. -/
def buf12 : List Nat := List.replicate 12 0

/-- A 5-byte packet (shorter than MIN_PKT_LEN). -/
def buf5 : List Nat := List.replicate 5 0

/-- A sendto outcome that transmitted 12 bytes. -/
def attOK : SendAttempt := { nsent := 12, errno := 0 }

/-- A sendto outcome that failed with EWOULDBLOCK. -/
def attWB : SendAttempt := { nsent := -1, errno := EWOULDBLOCK }

/-- All impairments off, forward direction. -/
def cfgZero : Config :=
  { delay := 0, jitter := 0, err_rate := 0, cut_rate := 0, loss_rate := 0,
    link_direction := LINK_FORWARD }

/-- All impairments off, reverse direction simulated. -/
def cfgRev : Config :=
  { delay := 0, jitter := 0, err_rate := 0, cut_rate := 0, loss_rate := 0,
    link_direction := LINK_REVERSE }

/-- loss_rate 100, everything else off. -/
def cfgLoss100 : Config :=
  { delay := 0, jitter := 0, err_rate := 0, cut_rate := 0, loss_rate := 100,
    link_direction := LINK_FORWARD }

/-- err_rate 100, everything else off. -/
def cfgErr100 : Config :=
  { delay := 0, jitter := 0, err_rate := 100, cut_rate := 0, loss_rate := 0,
    link_direction := LINK_FORWARD }

/-- delay 1 ms, jitter 5 ms (jitter exceeds delay). -/
def cfgJitter : Config :=
  { delay := 1, jitter := 5, err_rate := 0, cut_rate := 0, loss_rate := 0,
    link_direction := LINK_FORWARD }

/-- delay 600 ms, jitter 100 ms (jitter below delay). -/
def cfgJ600 : Config :=
  { delay := 600, jitter := 100, err_rate := 0, cut_rate := 0, loss_rate := 0,
    link_direction := LINK_FORWARD }

/-- A client address. -/
def addrA : Sockaddr6 := { sin6_addr := List.replicate 16 1, sin6_port := 1000 }

/-- A third (alien) address. -/
def addrB : Sockaddr6 := { sin6_addr := List.replicate 16 2, sin6_port := 2000 }

/-- The destination address ([::1], forward port). -/
def addrD : Sockaddr6 := { sin6_addr := List.replicate 15 0 ++ [1], sin6_port := 12345 }

/-- The initial classifier state (src_addr zero-initialised, not learned). -/
def st0 : LinkState :=
  { has_source_addr := false,
    src_addr := { sin6_addr := List.replicate 16 0, sin6_port := 0 } }

/-- The classifier state after learning addrA. -/
def stA : LinkState := { has_source_addr := true, src_addr := addrA }

/-- A queued slot whose deadline has already passed at time (1, 0). -/
def slotP : PktSlot := { ts := ⟨0, 0⟩, direction := LINK_FORWARD, size := 12, buf := buf12 }

/-! ## Theorems -/

/-! ### List.getD helper lemmas -/

theorem getD_set_self {α : Type} (d a : α) (e : List α) (i : Nat) (h : i < e.length) :
    (e.set i a).getD i d = a := by
  simp [List.getD_eq_getElem?_getD, List.getElem?_set_self, h]

theorem getD_set_ne {α : Type} (d a : α) (e : List α) (i j : Nat) (h : j ≠ i) :
    (e.set i a).getD j d = e.getD j d := by
  simp [List.getD_eq_getElem?_getD, List.getElem?_set_ne (Ne.symm h)]

theorem set_getD_self {α : Type} (d : α) (e : List α) (i : Nat) :
    e.set i (e.getD i d) = e := by
  induction e generalizing i with
  | nil => simp
  | cons x t ih =>
    cases i with
    | zero => simp
    | succ j => simpa [List.getD_eq_getElem?_getD] using ih j

theorem getD_take {α : Type} (d : α) (e : List α) (n j : Nat) (h : j < n) :
    (e.take n).getD j d = e.getD j d := by
  simp [List.getD_eq_getElem?_getD, List.getElem?_take, h]

theorem getD_append_lt {α : Type} (d : α) (e l : List α) (i : Nat) (h : i < e.length) :
    (e ++ l).getD i d = e.getD i d := by
  simp [List.getD_eq_getElem?_getD, List.getElem?_append_left h]

theorem getD_append_len {α : Type} (d v : α) (e : List α) :
    (e ++ [v]).getD e.length d = v := by
  induction e with
  | nil => simp
  | cons x t ih => simp [ih]

theorem getD_dropLast {α : Type} (d : α) (e : List α) (j : Nat) (h : j < e.length - 1) :
    e.dropLast.getD j d = e.getD j d := by
  simp [List.getD_eq_getElem?_getD, List.getElem?_dropLast,
    Nat.lt_of_lt_of_le h (Nat.sub_le _ _), h]

/-! ### C4: timeval_diff -/

/-- C4: the claim states that `timeval_diff` computes the exact
difference, borrowing unconditionally when the microsecond subtraction
underflows.  The code however skips the `+= 1000000` compensation when
the decremented seconds field is zero: at a = (1, 0), b = (0, 1) it
yields (0, -1), i.e. -1 µs instead of the exact 999999 µs. -/
theorem C4_timeval_diff_borrow_bug :
    timeval_diff ⟨1, 0⟩ ⟨0, 1⟩ = ⟨0, -1⟩ ∧
    timevalMicros (timeval_diff ⟨1, 0⟩ ⟨0, 1⟩) ≠
      timevalMicros ⟨1, 0⟩ - timevalMicros ⟨0, 1⟩ := by
  constructor <;> decide

/-! ### C2: the RAND_PERCENT comparison -/

theorem afterImpair_out_ne_dropped (cfg : Config) (now : Timeval) (buf : List Nat)
    (dir : Nat) (r : Nat → Nat) (k : Nat) (att : SendAttempt) :
    (afterImpair cfg now buf dir r k att).out ≠ LinkOutcome.dropped := by
  unfold afterImpair
  split
  · simp
  · split <;> simp

/-- C2: the claim asserts that pct == 100 always fires and that with
loss_pct = 100 every packet is dropped.  On the code the draw is
`rand() % 101 ∈ [0, 100]` and the comparison is `r < pct`, so a raw
draw of 100 does not fire even at pct == 100: here a packet survives a
loss rate of 100 and is delivered. -/
theorem C2_counterexample :
    (simulate_link cfgLoss100 ⟨0, 0⟩ buf12 LINK_FORWARD (fun _ => 100) 0 attOK).out
      = LinkOutcome.sent buf12 LINK_FORWARD ∧
    (simulate_link cfgLoss100 ⟨0, 0⟩ buf12 LINK_FORWARD (fun _ => 100) 0 attOK).out
      ≠ LinkOutcome.dropped ∧
    cfgLoss100.loss_rate = 100 := by
  refine ⟨by decide, by decide, by decide⟩

/-- C2 (amended): every impairment decision compares a fresh draw
`rand() % 101 ∈ [0, 100]` against the configured percentage via
`r < pct`; pct == 0 never fires; but pct == 100 fires exactly when the
draw is not congruent to 100 mod 101, so with loss_pct = 100 a packet
is dropped iff its draw mod 101 differs from 100, and a packet whose
draw is congruent to 100 survives the pipeline. -/
theorem C2_rand_percent_amended :
    (∀ x : Nat, randPercent x ≤ 100) ∧
    (∀ (cfg : Config) (r : Nat → Nat) (k : Nat), cfg.loss_rate = 0 →
      loss_fires cfg r k = false) ∧
    (∀ (cfg : Config) (buf : List Nat) (r : Nat → Nat) (k : Nat), cfg.cut_rate = 0 →
      cut_fires cfg buf r k = false) ∧
    (∀ (cfg : Config) (r : Nat → Nat) (k : Nat), cfg.err_rate = 0 →
      err_draw_hit cfg r k = false) ∧
    (∀ (cfg : Config) (r : Nat → Nat) (k : Nat), cfg.loss_rate = 100 →
      (loss_fires cfg r k = true ↔ randPercent (r k) ≠ 100)) ∧
    (∀ (cfg : Config) (now : Timeval) (buf : List Nat) (dir : Nat) (r : Nat → Nat)
      (k : Nat) (att : SendAttempt),
      ((simulate_link cfg now buf dir r k att).out = LinkOutcome.dropped ↔
        loss_fires cfg r k = true)) := by
  refine ⟨?_, ?_, ?_, ?_, ?_, ?_⟩
  · intro x
    simp only [randPercent]
    omega
  · intro cfg r k h
    simp [loss_fires, h]
  · intro cfg buf r k h
    simp [cut_fires, cut_draw_hit, h]
  · intro cfg r k h
    simp [err_draw_hit, h]
  · intro cfg r k h
    simp only [loss_fires, h, randPercent, Bool.and_eq_true, decide_eq_true_eq]
    omega
  · intro cfg now buf dir r k att
    cases hl : loss_fires cfg r k with
    | true => simp [simulate_link, hl]
    | false =>
      have hne : (simulate_link cfg now buf dir r k att).out ≠ LinkOutcome.dropped := by
        unfold simulate_link
        rw [hl]
        simp only [Bool.false_eq_true, if_false]
        split
        · apply afterImpair_out_ne_dropped
        · split
          · apply afterImpair_out_ne_dropped
          · apply afterImpair_out_ne_dropped
      simp [hne, hl]

/-- Witness for C2_rand_percent_amended at concrete inputs. -/
theorem C2_rand_percent_amended_witness :
    loss_fires cfgZero (fun _ => 7) 0 = false ∧
    (loss_fires cfgLoss100 (fun _ => 100) 0 = true ↔ randPercent 100 ≠ 100) :=
  ⟨C2_rand_percent_amended.2.1 cfgZero (fun _ => 7) 0 (by decide),
   C2_rand_percent_amended.2.2.2.2.1 cfgLoss100 (fun _ => 100) 0 (by decide)⟩

/-! ### C5: the applied delay under jitter -/

/-- C5: the claim states the applied delay always lies in
[delay - jitter, delay + jitter] (clamped modulo 10000).  With delay 1
and jitter 5, a draw of 3 takes the subtraction branch, which wraps
modulo 2^32 before the modulo 10000, yielding 7294 ms — matching no
residue of any value of the interval [-4, 6]. -/
theorem C5_counterexample :
    (simulate_link cfgJitter ⟨0, 0⟩ buf12 LINK_FORWARD (fun _ => 3) 0 attOK).out
      = LinkOutcome.queued
          { ts := ⟨7, 294000⟩, direction := LINK_FORWARD, size := 12, buf := buf12 } 7294 ∧
    cfgJitter.delay = 1 ∧ cfgJitter.jitter = 5 ∧
    ((List.range 11).all fun i => decide (((i : Int) - 4) % 10000 ≠ 7294)) = true := by
  refine ⟨by decide, by decide, by decide, by decide⟩

/-- C5 (amended): when delay_ms > 0 and jitter_ms > 0 and moreover
jitter_ms ≤ delay_ms and delay_ms + jitter_ms < 2^32, the applied
delay is v mod 10000 for a value v in [delay - jitter, delay + jitter].
Both side conditions are necessary: when jitter exceeds delay the
subtraction branch wraps modulo 2^32 before the modulo 10000 (see the
counterexample), and when delay + jitter reaches 2^32 the addition
branch wraps the same way (delay and jitter are each below 2^32 as C
unsigned ints, but their sum need not be). -/
theorem C5_applied_delay_amended (cfg : Config) (r : Nat → Nat) (k : Nat)
    (now : Timeval) (buf : List Nat) (dir : Nat) (att : SendAttempt)
    (hd : 0 < cfg.delay) (hj : 0 < cfg.jitter) (hji : cfg.jitter ≤ cfg.delay)
    (hU : cfg.delay + cfg.jitter < U32) :
    cfg.delay - cfg.jitter ≤ appliedSpecValue cfg r k ∧
    appliedSpecValue cfg r k ≤ cfg.delay + cfg.jitter ∧
    applied_delay cfg r k = appliedSpecValue cfg r k % 10000 ∧
    (afterImpair cfg now buf dir r k att).out
      = LinkOutcome.queued
          { ts := { tv_sec := now.tv_sec + Int.ofNat (applied_delay cfg r k / 1000),
                    tv_usec := now.tv_usec + Int.ofNat (applied_delay cfg r k % 1000 * 1000) },
            direction := dir, size := buf.length, buf := buf }
          (applied_delay cfg r k) := by
  have hjne : cfg.jitter ≠ 0 := Nat.pos_iff_ne_zero.mp hj
  have hdne : cfg.delay ≠ 0 := Nat.pos_iff_ne_zero.mp hd
  have hU32 : U32 = 4294967296 := rfl
  have hx : r (k + 1) % cfg.jitter < cfg.jitter := Nat.mod_lt _ hj
  refine ⟨?_, ?_, ?_, ?_⟩
  · unfold appliedSpecValue
    split <;> omega
  · unfold appliedSpecValue
    split <;> omega
  · unfold applied_delay jitter_draw appliedSpecValue
    rw [if_pos hjne]
    split
    · have h1 : (cfg.delay + r (k + 1) % cfg.jitter) % U32
          = cfg.delay + r (k + 1) % cfg.jitter := Nat.mod_eq_of_lt (by omega)
      rw [h1]
    · have h2 : r (k + 1) % cfg.jitter % U32 = r (k + 1) % cfg.jitter :=
        Nat.mod_eq_of_lt (by omega)
      rw [h2]
      have h3 : cfg.delay + (U32 - r (k + 1) % cfg.jitter)
          = U32 + (cfg.delay - r (k + 1) % cfg.jitter) := by omega
      rw [h3, Nat.add_mod_left]
      have h4 : (cfg.delay - r (k + 1) % cfg.jitter) % U32
          = cfg.delay - r (k + 1) % cfg.jitter := Nat.mod_eq_of_lt (by omega)
      rw [h4]
  · unfold afterImpair
    rw [if_pos hdne]

/-- Witness for C5_applied_delay_amended at a concrete configuration. -/
theorem C5_applied_delay_amended_witness :
    0 < cfgJ600.delay ∧ cfgJ600.jitter ≤ cfgJ600.delay ∧
    applied_delay cfgJ600 (fun _ => 50) 0
      = appliedSpecValue cfgJ600 (fun _ => 50) 0 % 10000 :=
  ⟨by decide, by decide,
   (C5_applied_delay_amended cfgJ600 (fun _ => 50) 0 ⟨0, 0⟩ buf12 LINK_FORWARD attOK
      (by decide) (by decide) (by decide) (by decide)).2.2.1⟩

/-! ### C6: truncation and the 0x20 marker -/

theorem afterImpair_payload (cfg : Config) (now : Timeval) (buf : List Nat) (dir : Nat)
    (r : Nat → Nat) (k : Nat) (att : SendAttempt) (p : List Nat)
    (h : outPayload (afterImpair cfg now buf dir r k att).out = some p) : p = buf := by
  unfold afterImpair at h
  split at h
  · simp [outPayload] at h
    exact h.symm
  · split at h
    · simp [outPayload] at h
      exact h.symm
    · simp [outPayload] at h

/-- C6: the claim states that whenever truncation does not fire, bit
0x20 of byte 0 of the delivered payload is unchanged.  But corruption
may pick byte 0 and bitwise-invert it, flipping that bit: with
err_rate 100 and an all-zero draw stream the corrupted index is 0 and
byte 0 goes from 0x00 (bit clear) to 0xFF (bit set). -/
theorem C6_counterexample :
    (simulate_link cfgErr100 ⟨0, 0⟩ buf12 LINK_FORWARD (fun _ => 0) 0 attOK).out
      = LinkOutcome.sent (buf12.set 0 255) LINK_FORWARD ∧
    cut_fires cfgErr100 buf12 (fun _ => 0) 0 = false ∧
    Nat.testBit ((buf12.set 0 255).getD 0 0) 5 = true ∧
    Nat.testBit (buf12.getD 0 0) 5 = false := by
  refine ⟨by decide, by decide, by decide, by decide⟩

/-- C6 (amended): when truncation fires the delivered payload is
exactly the truncated-and-marked packet — length MIN_PKT_LEN, bit 0x20
of byte 0 set, all other delivered bytes unaltered (in particular the
packet is not also corrupted in the same pass); when truncation does
not fire, bit 0x20 of byte 0 is unchanged **provided** corruption did
not fire on byte 0 — a corruption hit at index 0 inverts byte 0 and
flips that bit. -/
theorem C6_truncation_amended (cfg : Config) (now : Timeval) (buf : List Nat) (dir : Nat)
    (r : Nat → Nat) (k : Nat) (att : SendAttempt) :
    (loss_fires cfg r k = false → cut_fires cfg buf r k = true →
      ∀ p, outPayload (simulate_link cfg now buf dir r k att).out = some p →
        p = truncateMark buf ∧ p.length = MIN_PKT_LEN ∧
        Nat.testBit (p.getD 0 0) 5 = true ∧
        (∀ i, 0 < i → i < MIN_PKT_LEN → p.getD i 0 = buf.getD i 0)) ∧
    (loss_fires cfg r k = false → cut_fires cfg buf r k = false →
      (err_draw_hit cfg r k = false ∨ corrupt_idx cfg buf r k ≠ 0) →
      ∀ p, outPayload (simulate_link cfg now buf dir r k att).out = some p →
        p.getD 0 0 = buf.getD 0 0) := by
  constructor
  · intro hl hc p hp
    have hlen : MIN_PKT_LEN < buf.length := by
      have := hc
      simp only [cut_fires, Bool.and_eq_true, decide_eq_true_eq] at this
      exact this.2
    have hp2 : p = truncateMark buf := by
      apply afterImpair_payload cfg now (truncateMark buf) dir r (kAfterCut cfg k) att
      rw [← hp]
      unfold simulate_link
      rw [hl, hc]
      simp
    refine ⟨hp2, ?_, ?_, ?_⟩
    · rw [hp2]
      unfold truncateMark
      rw [List.length_set, List.length_take]
      unfold MIN_PKT_LEN at hlen ⊢
      omega
    · rw [hp2]
      unfold truncateMark
      rw [getD_set_self]
      · rw [Nat.testBit_lor]
        have h32 : Nat.testBit 32 5 = true := by decide
        rw [h32, Bool.or_true]
      · rw [List.length_take]
        unfold MIN_PKT_LEN at hlen ⊢
        omega
    · intro i h0 hi
      rw [hp2]
      unfold truncateMark
      rw [getD_set_ne _ _ _ _ _ (Nat.pos_iff_ne_zero.mp h0), getD_take]
      exact hi
  · intro hl hc hdisj p hp
    rcases Bool.eq_false_or_eq_true (err_draw_hit cfg r k) with he | he
    · have hidx : corrupt_idx cfg buf r k ≠ 0 := by
        rcases hdisj with h | h
        · rw [he] at h
          exact absurd h (by simp)
        · exact h
      have hp2 : p = corruptPkt buf (corrupt_idx cfg buf r k) := by
        apply afterImpair_payload cfg now (corruptPkt buf (corrupt_idx cfg buf r k)) dir r
          (kAfterErrPct cfg k + 1) att
        rw [← hp]
        unfold simulate_link
        rw [hl, hc, he]
        simp
      rw [hp2]
      unfold corruptPkt
      rw [getD_set_ne _ _ _ _ _ (Ne.symm hidx)]
    · have hp2 : p = buf := by
        apply afterImpair_payload cfg now buf dir r (kAfterErrPct cfg k) att
        rw [← hp]
        unfold simulate_link
        rw [hl, hc, he]
        simp
      rw [hp2]

/-- Witness for C6_truncation_amended at a concrete truncating run. -/
theorem C6_truncation_amended_witness :
    (List.replicate 40 0 : List Nat).length = 40 ∧
    (truncateMark (List.replicate 40 0)).length = MIN_PKT_LEN ∧
    Nat.testBit ((truncateMark (List.replicate 40 0)).getD 0 0) 5 = true := by
  refine ⟨by decide, ?_, ?_⟩
  · have h := (C6_truncation_amended
      { delay := 0, jitter := 0, err_rate := 0, cut_rate := 100, loss_rate := 0,
        link_direction := LINK_FORWARD }
      ⟨0, 0⟩ (List.replicate 40 0) LINK_FORWARD (fun _ => 0) 0
      { nsent := 12, errno := 0 }).1 (by decide) (by decide)
      (truncateMark (List.replicate 40 0)) (by decide)
    exact h.2.1
  · have h := (C6_truncation_amended
      { delay := 0, jitter := 0, err_rate := 0, cut_rate := 100, loss_rate := 0,
        link_direction := LINK_FORWARD }
      ⟨0, 0⟩ (List.replicate 40 0) LINK_FORWARD (fun _ => 0) 0
      { nsent := 12, errno := 0 }).1 (by decide) (by decide)
      (truncateMark (List.replicate 40 0)) (by decide)
    exact h.2.2.1

/-! ### C7: transient send failures -/

/-- C7: the claim states that on every egress path a transient send
failure never aborts the loop.  In the code only deliver_delayed_pkt
checks errno: the immediate-send path of simulate_link returns
EXIT_FAILURE on any write_out failure — here with errno EWOULDBLOCK —
which ends the proxy loop. -/
theorem C7_counterexample :
    (simulate_link cfgZero ⟨0, 0⟩ buf12 LINK_FORWARD (fun _ => 0) 0 attWB).code
      = EXIT_FAILURE ∧
    transient_errno attWB.errno = true := by
  refine ⟨by decide, by decide⟩

/-- C7 (amended): only the deferred-delivery path treats transient
failures (would-block, interrupted, again) as a retry-later success for
the current tick; the immediate sends of the impairment pipeline and
the verbatim relays of mask-excluded traffic treat any send failure —
transient errno included — as fatal (EXIT_FAILURE), aborting the
loop. -/
theorem C7_transient_amended :
    (∀ (atts : Nat → SendAttempt) (i : Nat) (q : List PktSlot) (lc : Timeval) (p : PktSlot),
      minq_peek q = some p → timeval_cmp lc p.ts = true →
      write_out p.size (atts i) = EXIT_FAILURE → transient_errno (atts i).errno = true →
      deliver_run atts i q lc = (EXIT_SUCCESS, q, i)) ∧
    (∀ (cfg : Config) (now : Timeval) (buf : List Nat) (dir : Nat) (r : Nat → Nat)
      (k : Nat) (att : SendAttempt),
      cfg.delay = 0 → transient_errno att.errno = true →
      write_out buf.length att = EXIT_FAILURE →
      (afterImpair cfg now buf dir r k att).code = EXIT_FAILURE) ∧
    (∀ (cfg : Config) (dest : Sockaddr6) (st : LinkState) (fromA : Sockaddr6)
      (buf : List Nat) (now : Timeval) (r : Nat → Nat) (k : Nat) (att : SendAttempt),
      MIN_PKT_LEN ≤ buf.length →
      compute_direction dest (learn st fromA).src_addr fromA ≠ 0 →
      SAME_DIRECTION (compute_direction dest (learn st fromA).src_addr fromA)
        cfg.link_direction = 0 →
      transient_errno att.errno = true → write_out buf.length att = EXIT_FAILURE →
      (process_incoming_pkt cfg dest st fromA buf now r k att).code = EXIT_FAILURE) := by
  refine ⟨?_, ?_, ?_⟩
  · intro atts i q lc p hpeek hexp hfail htrans
    cases q with
    | nil => simp [minq_peek, minq_empty] at hpeek
    | cons a t =>
      have hpa : a = p := by
        simp [minq_peek, minq_empty] at hpeek
        exact hpeek
      unfold deliver_run
      show deliver_delayed_pkt atts (t.length + 1) i (a :: t) lc = (EXIT_SUCCESS, a :: t, i)
      unfold deliver_delayed_pkt
      have hpk : minq_peek (a :: t) = some a := by simp [minq_peek, minq_empty]
      rw [hpk]
      simp only [hpa, hexp, if_true]
      rw [hfail]
      simp [htrans, EXIT_FAILURE, EXIT_SUCCESS]
  · intro cfg now buf dir r k att hdel htrans hfail
    unfold afterImpair
    rw [if_neg (by simp [hdel]), hfail]
    simp [EXIT_FAILURE, EXIT_SUCCESS]
  · intro cfg dest st fromA buf now r k att hlen hdir hmask htrans hfail
    unfold process_incoming_pkt
    rw [if_neg (by omega)]
    simp only [hmask, if_pos rfl]
    rw [if_neg hdir, hfail]
    simp [EXIT_FAILURE, EXIT_SUCCESS]

/-- Witness for C7_transient_amended at concrete inputs. -/
theorem C7_transient_amended_witness :
    deliver_run (fun _ => attWB) 0 [slotP] ⟨1, 0⟩ = (EXIT_SUCCESS, [slotP], 0) ∧
    (afterImpair cfgZero ⟨0, 0⟩ buf12 LINK_FORWARD (fun _ => 0) 0 attWB).code
      = EXIT_FAILURE ∧
    (process_incoming_pkt cfgRev addrD st0 addrA buf12 ⟨0, 0⟩ (fun _ => 0) 0 attWB).code
      = EXIT_FAILURE :=
  ⟨C7_transient_amended.1 (fun _ => attWB) 0 [slotP] ⟨1, 0⟩ slotP (by decide) (by decide)
      (by decide) (by decide),
   C7_transient_amended.2.1 cfgZero ⟨0, 0⟩ buf12 LINK_FORWARD (fun _ => 0) 0 attWB
      (by decide) (by decide) (by decide),
   C7_transient_amended.2.2 cfgRev addrD st0 addrA buf12 ⟨0, 0⟩ (fun _ => 0) 0 attWB
      (by decide) (by decide) (by decide) (by decide) (by decide)⟩

/-! ### C3: order of the direction checks -/

/-- C3: the claim states that a datagram whose source equals both the
destination and the (collapsed) client is classified reverse.  The two
checks are successive assignments without an else, so the later
client-match assignment overwrites the reverse one: the first datagram
sent from the destination address itself is learned as the client and
classified LINK_FORWARD, not LINK_REVERSE. -/
theorem C3_counterexample :
    process_incoming_pkt cfgZero addrD st0 addrD buf12 ⟨0, 0⟩ (fun _ => 0) 0 attOK
      = { code := EXIT_SUCCESS,
          st := { has_source_addr := true, src_addr := addrD },
          out := ProcOutcome.simulated
            { code := EXIT_SUCCESS, out := LinkOutcome.sent buf12 LINK_FORWARD, k := 0 }
            LINK_FORWARD,
          k := 0 } ∧
    sockaddr_cmp addrD addrD = false ∧
    LINK_FORWARD ≠ LINK_REVERSE := by
  refine ⟨by decide, by decide, by decide⟩

/-- C3 (amended): the direction checks are applied as two successive
assignments — source equals destination_addr sets reverse, then source
equals client_addr sets forward — with the second overwriting the
first; consequently a datagram whose source address equals both is
classified forward, and reverse results only when the source matches
the destination but not the learned client. -/
theorem C3_direction_order_amended (dest src fromA : Sockaddr6) :
    (sockaddr_cmp fromA src = false → compute_direction dest src fromA = LINK_FORWARD) ∧
    (sockaddr_cmp fromA src = true → sockaddr_cmp fromA dest = false →
      compute_direction dest src fromA = LINK_REVERSE) ∧
    (sockaddr_cmp fromA src = true → sockaddr_cmp fromA dest = true →
      compute_direction dest src fromA = 0) := by
  refine ⟨?_, ?_, ?_⟩
  · intro h
    simp [compute_direction, h]
  · intro h1 h2
    simp [compute_direction, h1, h2]
  · intro h1 h2
    simp [compute_direction, h1, h2]

/-- Witness for C3_direction_order_amended: a source equal to both is
classified forward. -/
theorem C3_direction_order_amended_witness :
    sockaddr_cmp addrD addrD = false ∧
    compute_direction addrD addrD addrD = LINK_FORWARD :=
  ⟨by decide, (C3_direction_order_amended addrD addrD addrD).1 (by decide)⟩

/-! ### C8: stability of the learned client address and alien isolation -/

/-- C8: once client_addr has been learned, no later datagram overwrites
it, and a datagram from an address matching neither the learned client
nor the destination is dropped with no delivery, no random draw, and no
state change (as malformed when under-length, as alien otherwise). -/
theorem C8_client_addr_stable (cfg : Config) (dest : Sockaddr6) (st : LinkState)
    (fromA : Sockaddr6) (buf : List Nat) (now : Timeval) (r : Nat → Nat) (k : Nat)
    (att : SendAttempt) (h : st.has_source_addr = true) :
    ((process_incoming_pkt cfg dest st fromA buf now r k att).st = st) ∧
    (sockaddr_cmp fromA st.src_addr = true → sockaddr_cmp fromA dest = true →
      process_incoming_pkt cfg dest st fromA buf now r k att
        = { code := EXIT_SUCCESS, st := st,
            out := if buf.length < MIN_PKT_LEN then ProcOutcome.malformed
                   else ProcOutcome.alien,
            k := k }) := by
  have hlearn : learn st fromA = st := by simp [learn, h]
  constructor
  · unfold process_incoming_pkt
    rw [hlearn]
    dsimp only
    split_ifs <;> rfl
  · intro h1 h2
    have hdir : compute_direction dest st.src_addr fromA = 0 := by
      simp [compute_direction, h1, h2]
    unfold process_incoming_pkt
    dsimp only
    rw [hlearn, hdir]
    split_ifs <;> simp_all

/-- Witness for C8_client_addr_stable: an alien datagram after addrA
has been learned. -/
theorem C8_client_addr_stable_witness :
    stA.has_source_addr = true ∧
    process_incoming_pkt cfgZero addrD stA addrB buf12 ⟨0, 0⟩ (fun _ => 0) 0 attOK
      = { code := EXIT_SUCCESS, st := stA,
          out := if buf12.length < MIN_PKT_LEN then ProcOutcome.malformed
                 else ProcOutcome.alien,
          k := 0 } :=
  ⟨by decide,
   (C8_client_addr_stable cfgZero addrD stA addrB buf12 ⟨0, 0⟩ (fun _ => 0) 0 attOK
      (by decide)).2 (by decide) (by decide)⟩

/-! ### C9: order of the length check and the learning step -/

/-- C9: the claim states that address learning precedes the
minimum-length check, so that even a short first datagram sets
client_addr.  In the code the `len < MIN_PKT_LEN` drop happens first:
a 5-byte first datagram is dropped as malformed and the classifier
state is left unlearned. -/
theorem C9_counterexample :
    process_incoming_pkt cfgZero addrD st0 addrA buf5 ⟨0, 0⟩ (fun _ => 0) 0 attOK
      = { code := EXIT_SUCCESS, st := st0, out := ProcOutcome.malformed, k := 0 } ∧
    st0.has_source_addr = false ∧
    buf5.length < MIN_PKT_LEN := by
  refine ⟨by decide, by decide, by decide⟩

/-- C9 (amended): the minimum-length check precedes address learning: a
datagram shorter than MIN_PKT_LEN is dropped as malformed with the
classifier state unchanged (so a short first datagram does not set
client_addr), and learning happens exactly for the first datagram of
length at least MIN_PKT_LEN. -/
theorem C9_length_check_first_amended (cfg : Config) (dest : Sockaddr6) (st : LinkState)
    (fromA : Sockaddr6) (buf : List Nat) (now : Timeval) (r : Nat → Nat) (k : Nat)
    (att : SendAttempt) :
    (buf.length < MIN_PKT_LEN →
      process_incoming_pkt cfg dest st fromA buf now r k att
        = { code := EXIT_SUCCESS, st := st, out := ProcOutcome.malformed, k := k }) ∧
    (MIN_PKT_LEN ≤ buf.length → st.has_source_addr = false →
      (process_incoming_pkt cfg dest st fromA buf now r k att).st
        = { has_source_addr := true, src_addr := fromA }) := by
  constructor
  · intro h
    unfold process_incoming_pkt
    rw [if_pos h]
  · intro h hns
    have hlearn : learn st fromA = { has_source_addr := true, src_addr := fromA } := by
      simp [learn, hns]
    unfold process_incoming_pkt
    rw [if_neg (by omega)]
    dsimp only
    rw [hlearn]
    split_ifs <;> rfl

/-- Witness for C9_length_check_first_amended at concrete inputs. -/
theorem C9_length_check_first_amended_witness :
    buf5.length < MIN_PKT_LEN ∧
    process_incoming_pkt cfgZero addrD st0 addrA buf5 ⟨0, 0⟩ (fun _ => 0) 0 attOK
      = { code := EXIT_SUCCESS, st := st0, out := ProcOutcome.malformed, k := 0 } :=
  ⟨by decide,
   (C9_length_check_first_amended cfgZero addrD st0 addrA buf5 ⟨0, 0⟩ (fun _ => 0) 0
      attOK).1 (by decide)⟩

/-! ### C10: verbatim relay of mask-excluded traffic -/

/-- C10: a well-formed datagram whose direction is not selected by the
direction mask is relayed with its payload byte-for-byte identical to
the received bytes, and the rand() cursor is unchanged — no
pseudo-random draw is consumed, so the random stream continues exactly
as if the relayed packet had not arrived. -/
theorem C10_relay_verbatim (cfg : Config) (dest : Sockaddr6) (st : LinkState)
    (fromA : Sockaddr6) (buf : List Nat) (now : Timeval) (r : Nat → Nat) (k : Nat)
    (att : SendAttempt)
    (h1 : MIN_PKT_LEN ≤ buf.length)
    (h2 : compute_direction dest (learn st fromA).src_addr fromA ≠ 0)
    (h3 : SAME_DIRECTION (compute_direction dest (learn st fromA).src_addr fromA)
      cfg.link_direction = 0)
    (h4 : write_out buf.length att = EXIT_SUCCESS) :
    process_incoming_pkt cfg dest st fromA buf now r k att
      = { code := EXIT_SUCCESS, st := learn st fromA,
          out := ProcOutcome.relayed buf
            (compute_direction dest (learn st fromA).src_addr fromA),
          k := k } := by
  unfold process_incoming_pkt
  rw [if_neg (by omega), if_neg h2, if_pos h3, if_pos h4]

/-- Witness for C10_relay_verbatim: with reverse-only simulation, a
forward datagram is relayed untouched with the cursor unchanged. -/
theorem C10_relay_verbatim_witness :
    MIN_PKT_LEN ≤ buf12.length ∧
    process_incoming_pkt cfgRev addrD st0 addrA buf12 ⟨0, 0⟩ (fun _ => 0) 5 attOK
      = { code := EXIT_SUCCESS, st := learn st0 addrA,
          out := ProcOutcome.relayed buf12
            (compute_direction addrD (learn st0 addrA).src_addr addrA),
          k := 5 } :=
  ⟨by decide,
   C10_relay_verbatim cfgRev addrD st0 addrA buf12 ⟨0, 0⟩ (fun _ => 0) 5 attOK
     (by decide) (by decide) (by decide) (by decide)⟩

/-! ### C1: correctness of the min-queue -/

theorem gtCmp_eq_true {α : Type} [LinearOrder α] (a b : α) :
    gtCmp α a b = true ↔ b < a := by
  simp [gtCmp]

theorem gtCmp_eq_false {α : Type} [LinearOrder α] (a b : α) :
    gtCmp α a b = false ↔ a ≤ b := by
  simp [gtCmp]

theorem getE_set_eq {α : Type} (d a : α) (e : List α) (i : Nat) (h : i < e.length) :
    getE d (e.set i a) i = a := getD_set_self d a e i h

theorem getE_set_neq {α : Type} (d a : α) (e : List α) (i j : Nat) (h : j ≠ i) :
    getE d (e.set i a) j = getE d e j := getD_set_ne d a e i j h

theorem getE_append_lt {α : Type} (d : α) (e l : List α) (i : Nat) (h : i < e.length) :
    getE d (e ++ l) i = getE d e i := getD_append_lt d e l i h

theorem getE_dropLast {α : Type} (d : α) (e : List α) (j : Nat) (h : j < e.length - 1) :
    getE d e.dropLast j = getE d e j := getD_dropLast d e j h

theorem getE_swapL_fst {α : Type} (d : α) (e : List α) (i j : Nat) (hi : i < e.length)
    (hij : i ≠ j) : getE d (swapL d e i j) i = getE d e j := by
  unfold swapL
  rw [getE_set_neq d _ _ j i hij, getE_set_eq]
  exact hi

theorem getE_swapL_snd {α : Type} (d : α) (e : List α) (i j : Nat) (hj : j < e.length) :
    getE d (swapL d e i j) j = getE d e i := by
  unfold swapL
  rw [getE_set_eq]
  rw [List.length_set]
  exact hj

theorem getE_swapL_other {α : Type} (d : α) (e : List α) (i j x : Nat) (hxi : x ≠ i)
    (hxj : x ≠ j) : getE d (swapL d e i j) x = getE d e x := by
  unfold swapL
  rw [getE_set_neq d _ _ j x hxj, getE_set_neq d _ _ i x hxi]

theorem perm_cons_set {α : Type} (a b : α) :
    ∀ (l : List α) (k : Nat), k < l.length →
      List.Perm (a :: l.set k b) (b :: l.set k a) := by
  intro l
  induction l with
  | nil => intro k hk; simp at hk
  | cons x t ih =>
    intro k hk
    cases k with
    | zero =>
      simpa using List.Perm.swap b a t
    | succ k2 =>
      have h2 : k2 < t.length := by simpa using hk
      have hstep := (ih k2 h2).cons x
      simp only [List.set_cons_succ]
      exact ((List.Perm.swap x a _).trans hstep).trans (List.Perm.swap b x _)

theorem set_set_perm_lt {α : Type} (a b : α) :
    ∀ (l : List α) (i j : Nat), i < j → j < l.length →
      List.Perm ((l.set i a).set j b) ((l.set i b).set j a) := by
  intro l
  induction l with
  | nil => intro i j hij hj; simp at hj
  | cons x t ih =>
    intro i j hij hj
    cases i with
    | zero =>
      cases j with
      | zero => omega
      | succ j2 =>
        have hj2 : j2 < t.length := by simpa using hj
        simpa using perm_cons_set a b t j2 hj2
    | succ i2 =>
      cases j with
      | zero => omega
      | succ j2 =>
        have hij2 : i2 < j2 := by omega
        have hj2 : j2 < t.length := by simpa using hj
        simpa using (ih i2 j2 hij2 hj2).cons x

theorem set_set_perm {α : Type} (a b : α) (l : List α) (i j : Nat) (hij : i ≠ j)
    (hi : i < l.length) (hj : j < l.length) :
    List.Perm ((l.set i a).set j b) ((l.set i b).set j a) := by
  rcases Nat.lt_or_ge i j with h | h
  · exact set_set_perm_lt a b l i j h hj
  · have hji : j < i := by omega
    rw [List.set_comm a b l hij, List.set_comm b a l hij]
    exact set_set_perm_lt b a l j i hji hi

theorem swapL_perm {α : Type} (d : α) (e : List α) (i j : Nat) (hij : i ≠ j)
    (hi : i < e.length) (hj : j < e.length) :
    List.Perm (swapL d e i j) e := by
  unfold swapL
  have h1 := set_set_perm (getE d e j) (getE d e i) e i j hij hi hj
  have h2 : e.set i (getE d e i) = e := set_getD_self d e i
  have h3 : e.set j (getE d e j) = e := set_getD_self d e j
  have h4 : (e.set i (getE d e i)).set j (getE d e j) = e := by rw [h2, h3]
  rw [h4] at h1
  exact h1

theorem swapL_length {α : Type} (d : α) (e : List α) (i j : Nat) :
    (swapL d e i j).length = e.length := by
  simp [swapL]

theorem siftDown_length {α : Type} (cmp : α → α → Bool) (d : α) :
    ∀ (fuel : Nat) (e : List α) (c : Nat),
      (siftDown cmp d fuel e c).length = e.length := by
  intro fuel
  induction fuel with
  | zero => intro e c; rfl
  | succ n ih =>
    intro e c
    simp only [siftDown]
    split
    · rw [ih, swapL_length]
    · rfl

theorem siftUp_length {α : Type} (cmp : α → α → Bool) (d : α) :
    ∀ (fuel : Nat) (e : List α) (v : α) (i : Nat),
      (siftUp cmp d fuel e v i).length = e.length := by
  intro fuel
  induction fuel with
  | zero => intro e v i; exact List.length_set e i v
  | succ n ih =>
    intro e v i
    simp only [siftUp]
    split
    · rw [ih, List.length_set]
    · exact List.length_set e i v

theorem minq_push_length {α : Type} (cmp : α → α → Bool) (d : α) (e : List α) (v : α) :
    (minq_push cmp d e v).length = e.length + 1 := by
  unfold minq_push
  rw [siftUp_length]
  simp

theorem minq_pop_length {α : Type} (cmp : α → α → Bool) (d : α) (e : List α)
    (h : e ≠ []) : (minq_pop cmp d e).length = e.length - 1 := by
  unfold minq_pop
  rw [if_neg (by simp [minq_empty, h])]
  rw [siftDown_length, List.length_set, List.length_dropLast]

theorem has_child_spec {α : Type} (cmp : α → α → Bool) (d : α) (e : List α) (c : Nat)
    (h : has_child cmp d e c ≠ 0) :
    c < has_child cmp d e c ∧ has_child cmp d e c < e.length ∧
      has_child cmp d e c / 2 = c := by
  by_cases h1 : e.length ≤ 2 * c
  · exfalso
    apply h
    simp only [has_child]
    rw [if_pos h1]
  · by_cases h2 : 2 * c + 1 < e.length ∧ cmp (getE d e (2 * c)) (getE d e (2 * c + 1)) = true
    · have hv : has_child cmp d e c = 2 * c + 1 := by
        simp only [has_child]
        rw [if_neg h1, if_pos h2]
      rw [hv]
      omega
    · have hv : has_child cmp d e c = 2 * c := by
        simp only [has_child]
        rw [if_neg h1, if_neg h2]
      rw [hv] at h ⊢
      omega

theorem has_child_min {α : Type} [LinearOrder α] (d : α) (e : List α) (c : Nat)
    (h : has_child (gtCmp α) d e c ≠ 0) :
    ∀ j, 0 < j → j < e.length → j / 2 = c →
      getE d e (has_child (gtCmp α) d e c) ≤ getE d e j := by
  intro j hj0 hjlen hjc
  by_cases h1 : e.length ≤ 2 * c
  · exfalso
    omega
  · by_cases h2 : 2 * c + 1 < e.length ∧ gtCmp α (getE d e (2 * c)) (getE d e (2 * c + 1)) = true
    · have hv : has_child (gtCmp α) d e c = 2 * c + 1 := by
        simp only [has_child]
        rw [if_neg h1, if_pos h2]
      rw [hv]
      have hcase : j = 2 * c ∨ j = 2 * c + 1 := by omega
      rcases hcase with rfl | rfl
      · exact le_of_lt ((gtCmp_eq_true _ _).mp h2.2)
      · exact le_refl _
    · have hv : has_child (gtCmp α) d e c = 2 * c := by
        simp only [has_child]
        rw [if_neg h1, if_neg h2]
      rw [hv] at h ⊢
      have hcase : j = 2 * c ∨ j = 2 * c + 1 := by omega
      rcases hcase with rfl | rfl
      · exact le_refl _
      · rw [not_and_or] at h2
        rcases h2 with h2 | h2
        · exact absurd hjlen h2
        · have hf : gtCmp α (getE d e (2 * c)) (getE d e (2 * c + 1)) = false := by
            cases hb : gtCmp α (getE d e (2 * c)) (getE d e (2 * c + 1)) with
            | true => exact absurd hb h2
            | false => rfl
          exact (gtCmp_eq_false _ _).mp hf

theorem has_child_none {α : Type} [LinearOrder α] (d : α) (e : List α) (c : Nat)
    (h : has_child (gtCmp α) d e c = 0) :
    ∀ j, 0 < j → j < e.length → j / 2 = c → getE d e c ≤ getE d e j := by
  intro j hj0 hjlen hjc
  by_cases h1 : e.length ≤ 2 * c
  · exfalso
    omega
  · by_cases h2 : 2 * c + 1 < e.length ∧ gtCmp α (getE d e (2 * c)) (getE d e (2 * c + 1)) = true
    · have hv : has_child (gtCmp α) d e c = 2 * c + 1 := by
        simp only [has_child]
        rw [if_neg h1, if_pos h2]
      rw [hv] at h
      exfalso
      omega
    · have hv : has_child (gtCmp α) d e c = 2 * c := by
        simp only [has_child]
        rw [if_neg h1, if_neg h2]
      rw [hv] at h
      have hc0 : c = 0 := by omega
      subst hc0
      have hj1 : j = 1 := by omega
      subst hj1
      rw [not_and_or] at h2
      rcases h2 with h2 | h2
      · exact absurd (by omega) h2
      · have hf : gtCmp α (getE d e (2 * 0)) (getE d e (2 * 0 + 1)) = false := by
          cases hb : gtCmp α (getE d e (2 * 0)) (getE d e (2 * 0 + 1)) with
          | true => exact absurd hb h2
          | false => rfl
        have h3 := (gtCmp_eq_false _ _).mp hf
        simpa using h3

theorem siftDown_perm {α : Type} (cmp : α → α → Bool) (d : α) :
    ∀ (fuel : Nat) (e : List α) (c : Nat), List.Perm (siftDown cmp d fuel e c) e := by
  intro fuel
  induction fuel with
  | zero => intro e c; exact List.Perm.refl _
  | succ n ih =>
    intro e c
    simp only [siftDown]
    split
    · rename_i hcond
      have hm := has_child_spec cmp d e c hcond.1
      exact (ih _ _).trans
        (swapL_perm d e c (has_child cmp d e c) (by omega) (by omega) (by omega))
    · exact List.Perm.refl _

theorem siftDown_heapInv {α : Type} [LinearOrder α] (d : α) :
    ∀ (fuel : Nat) (e : List α) (c : Nat),
      e.length ≤ fuel + c →
      (∀ j, 0 < j → j < e.length → j / 2 ≠ c → getE d e (j / 2) ≤ getE d e j) →
      (∀ j, 0 < j → j < e.length → j / 2 = c → 0 < c → getE d e (c / 2) ≤ getE d e j) →
      heapInv d (siftDown (gtCmp α) d fuel e c) := by
  intro fuel
  induction fuel with
  | zero =>
    intro e c hlen hA hB
    show heapInv d e
    intro j hj0 hjlen
    exact hA j hj0 hjlen (by omega)
  | succ n ih =>
    intro e c hlen hA hB
    simp only [siftDown]
    split
    · rename_i hcond
      obtain ⟨hm0, hcmp⟩ := hcond
      obtain ⟨hcm, hmlen, hm2⟩ := has_child_spec (gtCmp α) d e c hm0
      have hlt : getE d e (has_child (gtCmp α) d e c) < getE d e c :=
        (gtCmp_eq_true _ _).mp hcmp
      have hmin := has_child_min d e c hm0
      apply ih (swapL d e c (has_child (gtCmp α) d e c)) (has_child (gtCmp α) d e c)
      · rw [swapL_length]
        omega
      · intro j hj0 hjlen hjm
        rw [swapL_length] at hjlen
        by_cases hjc : j = has_child (gtCmp α) d e c
        · subst hjc
          rw [hm2]
          rw [getE_swapL_snd d e c _ hmlen, getE_swapL_fst d e c _ (by omega) (by omega)]
          exact le_of_lt hlt
        · by_cases hjc2 : j = c
          · rw [hjc2]
            rw [getE_swapL_fst d e c _ (by omega) (by omega),
              getE_swapL_other d e c _ (c / 2) (by omega) (by omega)]
            exact hB _ (by omega) hmlen hm2 (by omega)
          · by_cases hjc3 : j / 2 = c
            · rw [hjc3, getE_swapL_fst d e c _ (by omega) (by omega),
                getE_swapL_other d e c _ j hjc2 hjc]
              exact hmin j hj0 hjlen hjc3
            · rw [getE_swapL_other d e c _ j hjc2 hjc,
                getE_swapL_other d e c _ (j / 2) hjc3 hjm]
              exact hA j hj0 hjlen hjc3
      · intro j hj0 hjlen hjm hmpos
        rw [swapL_length] at hjlen
        rw [hm2]
        rw [getE_swapL_fst d e c _ (by omega) (by omega),
          getE_swapL_other d e c _ j (by omega) (by omega), ← hjm]
        exact hA j hj0 hjlen (by omega)
    · rename_i hcond
      intro j hj0 hjlen
      by_cases hjc : j / 2 = c
      · rw [hjc]
        by_cases hm0 : has_child (gtCmp α) d e c = 0
        · exact has_child_none d e c hm0 j hj0 hjlen hjc
        · have hcf : gtCmp α (getE d e c) (getE d e (has_child (gtCmp α) d e c)) = false := by
            cases hb : gtCmp α (getE d e c) (getE d e (has_child (gtCmp α) d e c)) with
            | true => exact absurd ⟨hm0, hb⟩ hcond
            | false => rfl
          exact le_trans ((gtCmp_eq_false _ _).mp hcf)
            (has_child_min d e c hm0 j hj0 hjlen hjc)
      · exact hA j hj0 hjlen hjc

theorem siftUp_perm {α : Type} (cmp : α → α → Bool) (d : α) :
    ∀ (fuel : Nat) (e : List α) (v : α) (i : Nat), i < e.length →
      List.Perm (siftUp cmp d fuel e v i) (e.set i v) := by
  intro fuel
  induction fuel with
  | zero => intro e v i hi; exact List.Perm.refl _
  | succ n ih =>
    intro e v i hi
    simp only [siftUp]
    split
    · rename_i hcond
      have hp2 : i / 2 < i := Nat.div_lt_self (by omega) (by omega)
      have h1 := ih (e.set i (getE d e (i / 2))) v (i / 2) (by rw [List.length_set]; omega)
      refine h1.trans ?_
      have h2 := set_set_perm (getE d e (i / 2)) v e i (i / 2) (by omega) hi (by omega)
      refine h2.trans ?_
      have h4 : getE d (e.set i v) (i / 2) = getE d e (i / 2) :=
        getE_set_neq d v e i (i / 2) (by omega)
      have h3 : (e.set i v).set (i / 2) (getE d (e.set i v) (i / 2)) = e.set i v :=
        set_getD_self d (e.set i v) (i / 2)
      rw [← h4, h3]
    · exact List.Perm.refl _

theorem siftUp_heapInv {α : Type} [LinearOrder α] (d : α) :
    ∀ (fuel : Nat) (e : List α) (v : α) (i : Nat),
      i ≤ fuel → i < e.length →
      (∀ j, 0 < j → j < e.length → j ≠ i → j / 2 ≠ i → getE d e (j / 2) ≤ getE d e j) →
      (∀ j, 0 < j → j < e.length → j / 2 = i → v ≤ getE d e j) →
      (∀ j, 0 < j → j < e.length → j / 2 = i → 0 < i → getE d e (i / 2) ≤ getE d e j) →
      heapInv d (siftUp (gtCmp α) d fuel e v i) := by
  intro fuel
  induction fuel with
  | zero =>
    intro e v i hif hi hA hB hC
    have hi0 : i = 0 := by omega
    subst hi0
    show heapInv d (e.set 0 v)
    intro j hj0 hjlen
    rw [List.length_set] at hjlen
    by_cases hjc : j / 2 = 0
    · rw [hjc, getE_set_eq d v e 0 hi, getE_set_neq d v e 0 j (by omega)]
      exact hB j hj0 hjlen hjc
    · rw [getE_set_neq d v e 0 j (by omega), getE_set_neq d v e 0 (j / 2) hjc]
      exact hA j hj0 hjlen (by omega) hjc
  | succ n ih =>
    intro e v i hif hi hA hB hC
    simp only [siftUp]
    split
    · rename_i hcond
      obtain ⟨hi0, hcmp⟩ := hcond
      have hi0p : 0 < i := by omega
      have hlt : v < getE d e (i / 2) := (gtCmp_eq_true _ _).mp hcmp
      have hp2 : i / 2 < i := Nat.div_lt_self (by omega) (by omega)
      apply ih (e.set i (getE d e (i / 2))) v (i / 2) (by omega)
        (by rw [List.length_set]; omega)
      · intro j hj0 hjlen hne hne2
        rw [List.length_set] at hjlen
        by_cases hji : j = i
        · exfalso
          apply hne2
          rw [hji]
        · by_cases hjc : j / 2 = i
          · rw [hjc, getE_set_eq d _ e i hi, getE_set_neq d _ e i j hji]
            exact hC j hj0 hjlen hjc hi0p
          · rw [getE_set_neq d _ e i j hji, getE_set_neq d _ e i (j / 2) hjc]
            exact hA j hj0 hjlen hji hjc
      · intro j hj0 hjlen hjc
        rw [List.length_set] at hjlen
        by_cases hji : j = i
        · rw [hji, getE_set_eq d _ e i hi]
          exact le_of_lt hlt
        · rw [getE_set_neq d _ e i j hji]
          have h1 := hA j hj0 hjlen hji (by omega)
          rw [hjc] at h1
          exact le_trans (le_of_lt hlt) h1
      · intro j hj0 hjlen hjc hp0
        rw [List.length_set] at hjlen
        have hpp : i / 2 / 2 ≠ i := by omega
        rw [getE_set_neq d _ e i (i / 2 / 2) hpp]
        have hpar : getE d e (i / 2 / 2) ≤ getE d e (i / 2) := by
          have := hA (i / 2) hp0 (by omega) (by omega) (by omega)
          exact this
        by_cases hji : j = i
        · rw [hji, getE_set_eq d _ e i hi]
          exact hpar
        · rw [getE_set_neq d _ e i j hji]
          have h1 := hA j hj0 hjlen hji (by omega)
          rw [hjc] at h1
          exact le_trans hpar h1
    · rename_i hcond
      show heapInv d (e.set i v)
      intro j hj0 hjlen
      rw [List.length_set] at hjlen
      by_cases hji : j = i
      · have hi0 : i ≠ 0 := by omega
        have hcf : gtCmp α (getE d e (i / 2)) v = false := by
          cases hb : gtCmp α (getE d e (i / 2)) v with
          | true => exact absurd ⟨hi0, hb⟩ hcond
          | false => rfl
        rw [hji, getE_set_eq d v e i hi,
          getE_set_neq d v e i (i / 2) (by omega)]
        exact (gtCmp_eq_false _ _).mp hcf
      · by_cases hjc : j / 2 = i
        · rw [hjc, getE_set_eq d v e i hi, getE_set_neq d v e i j hji]
          exact hB j hj0 hjlen hjc
        · rw [getE_set_neq d v e i j hji, getE_set_neq d v e i (j / 2) hjc]
          exact hA j hj0 hjlen hji hjc

theorem minq_push_perm {α : Type} (cmp : α → α → Bool) (d : α) (e : List α) (v : α) :
    List.Perm (minq_push cmp d e v) (v :: e) := by
  unfold minq_push
  have h1 := siftUp_perm cmp d e.length (e ++ [v]) v e.length (by simp)
  have h2 : (e ++ [v]).set e.length v = e ++ [v] := by
    have h3 := set_getD_self d (e ++ [v]) e.length
    rw [getD_append_len] at h3
    exact h3
  rw [h2] at h1
  exact h1.trans (List.perm_append_singleton v e)

theorem minq_push_heapInv {α : Type} [LinearOrder α] (d : α) (e : List α) (v : α)
    (h : heapInv d e) : heapInv d (minq_push (gtCmp α) d e v) := by
  unfold minq_push
  apply siftUp_heapInv d e.length (e ++ [v]) v e.length (le_refl _) (by simp)
  · intro j hj0 hjlen hne hne2
    rw [List.length_append, List.length_singleton] at hjlen
    have hj : j < e.length := by omega
    rw [getE_append_lt d e [v] j hj, getE_append_lt d e [v] (j / 2) (by omega)]
    exact h j hj0 hj
  · intro j hj0 hjlen hjc
    exfalso
    rw [List.length_append, List.length_singleton] at hjlen
    omega
  · intro j hj0 hjlen hjc hi0
    exfalso
    rw [List.length_append, List.length_singleton] at hjlen
    omega

theorem heapInv_root_le {α : Type} [LinearOrder α] (d : α) (e : List α) (h : heapInv d e) :
    ∀ i, i < e.length → getE d e 0 ≤ getE d e i := by
  intro i
  induction i using Nat.strong_induction_on with
  | _ i ihn =>
    intro hi
    rcases Nat.eq_zero_or_pos i with h0 | hpos
    · subst h0
      exact le_refl _
    · have h1 := h i hpos hi
      have h2 := ihn (i / 2) (Nat.div_lt_self hpos (by omega)) (by omega)
      exact le_trans h2 h1

theorem heapInv_root_le_mem {α : Type} [LinearOrder α] (d : α) (e : List α)
    (h : heapInv d e) (x : α) (hx : x ∈ e) : getE d e 0 ≤ x := by
  obtain ⟨i, hi, rfl⟩ := List.mem_iff_getElem.mp hx
  have h1 := heapInv_root_le d e h i hi
  unfold getE at h1 ⊢
  rwa [List.getD_eq_getElem e d hi] at h1

theorem minq_peek_root {α : Type} (d : α) (e : List α) (m : α)
    (h : minq_peek e = some m) : getE d e 0 = m ∧ m ∈ e := by
  cases e with
  | nil => simp [minq_peek, minq_empty] at h
  | cons a t =>
    simp only [minq_peek, minq_empty, List.isEmpty_cons, Bool.false_eq_true, if_false,
      List.head?_cons, Option.some.injEq] at h
    subst h
    exact ⟨rfl, List.mem_cons_self a t⟩

theorem perm_last_cons_dropLast {α : Type} (d : α) :
    ∀ (t : List α), t ≠ [] →
      List.Perm t (getE d t (t.length - 1) :: t.dropLast) := by
  intro t
  induction t with
  | nil => intro h; exact absurd rfl h
  | cons x t2 ih =>
    intro _
    cases t2 with
    | nil =>
      show List.Perm [x] (getE d [x] 0 :: [])
      exact List.Perm.refl _
    | cons y t3 =>
      have h2 := (ih (by simp)).cons x
      have hg : getE d (x :: y :: t3) ((x :: y :: t3).length - 1)
          = getE d (y :: t3) ((y :: t3).length - 1) := by
        simp [getE]
      rw [hg, List.dropLast_cons₂]
      exact h2.trans (List.Perm.swap _ x _)

theorem minq_pop_perm {α : Type} (cmp : α → α → Bool) (d : α) (e : List α) (h : e ≠ []) :
    List.Perm (minq_pop cmp d e) e.tail := by
  unfold minq_pop
  rw [if_neg (by simp [minq_empty, h])]
  refine (siftDown_perm cmp d _ _ _).trans ?_
  cases e with
  | nil => exact absurd rfl h
  | cons x t =>
    cases t with
    | nil =>
      show List.Perm (([] : List α).set 0 (getE d [x] 0)) []
      exact List.Perm.refl _
    | cons y t2 =>
      have hg : getE d (x :: y :: t2) ((x :: y :: t2).length - 1)
          = getE d (y :: t2) ((y :: t2).length - 1) := by
        simp [getE]
      rw [List.dropLast_cons₂, hg]
      show List.Perm (getE d (y :: t2) ((y :: t2).length - 1) :: (y :: t2).dropLast) (y :: t2)
      exact (perm_last_cons_dropLast d (y :: t2) (by simp)).symm

theorem minq_pop_heapInv {α : Type} [LinearOrder α] (d : α) (e : List α)
    (h : heapInv d e) : heapInv d (minq_pop (gtCmp α) d e) := by
  by_cases he : e = []
  · subst he
    show heapInv d ([] : List α)
    intro j hj0 hjlen
    simp at hjlen
  · unfold minq_pop
    rw [if_neg (by simp [minq_empty, he])]
    apply siftDown_heapInv d e.length _ 0
    · rw [List.length_set, List.length_dropLast]
      omega
    · intro j hj0 hjlen hjc
      rw [List.length_set, List.length_dropLast] at hjlen
      have hj2 : 0 < j / 2 := by omega
      rw [getE_set_neq d _ _ 0 j (by omega), getE_set_neq d _ _ 0 (j / 2) (by omega),
        getE_dropLast d e j (by omega), getE_dropLast d e (j / 2) (by omega)]
      exact h j hj0 (by omega)
    · intro j hj0 hjlen hjc hc0
      exact absurd hc0 (by omega)

theorem popAll_subset {α : Type} (cmp : α → α → Bool) (d : α) :
    ∀ (fuel : Nat) (e : List α) (x : α), x ∈ popAll cmp d fuel e → x ∈ e := by
  intro fuel
  induction fuel with
  | zero => intro e x hx; simp [popAll] at hx
  | succ n ih =>
    intro e x hx
    cases e with
    | nil => simp [popAll, minq_peek, minq_empty] at hx
    | cons a t =>
      have hpk : minq_peek (a :: t) = some a := by simp [minq_peek, minq_empty]
      simp only [popAll, hpk, List.mem_cons] at hx
      rcases hx with rfl | hx2
      · exact List.mem_cons_self x t
      · have h1 := ih (minq_pop cmp d (a :: t)) x hx2
        have h2 := (minq_pop_perm cmp d (a :: t) (by simp)).mem_iff.mp h1
        exact List.mem_cons_of_mem a h2

theorem popAll_sorted {α : Type} [LinearOrder α] (d : α) :
    ∀ (fuel : Nat) (e : List α), heapInv d e →
      List.Sorted (· ≤ ·) (popAll (gtCmp α) d fuel e) := by
  intro fuel
  induction fuel with
  | zero => intro e h; simp [popAll]
  | succ n ih =>
    intro e h
    cases e with
    | nil => simp [popAll, minq_peek, minq_empty]
    | cons a t =>
      have hpk : minq_peek (a :: t) = some a := by simp [minq_peek, minq_empty]
      simp only [popAll, hpk]
      rw [List.sorted_cons]
      constructor
      · intro b hb
        have hb2 := popAll_subset (gtCmp α) d n _ b hb
        have hb3 := (minq_pop_perm (gtCmp α) d (a :: t) (by simp)).mem_iff.mp hb2
        have hb4 : b ∈ a :: t := List.mem_cons_of_mem a hb3
        have h1 := heapInv_root_le_mem d (a :: t) h b hb4
        simpa [getE] using h1
      · exact ih _ (minq_pop_heapInv d (a :: t) h)

theorem popAll_perm {α : Type} (cmp : α → α → Bool) (d : α) :
    ∀ (fuel : Nat) (e : List α), e.length ≤ fuel →
      List.Perm (popAll cmp d fuel e) e := by
  intro fuel
  induction fuel with
  | zero =>
    intro e h
    have he : e = [] := List.length_eq_zero.mp (by omega)
    subst he
    exact List.Perm.refl _
  | succ n ih =>
    intro e h
    cases e with
    | nil =>
      show List.Perm ([] : List α) []
      exact List.Perm.refl _
    | cons a t =>
      have hpk : minq_peek (a :: t) = some a := by simp [minq_peek, minq_empty]
      simp only [popAll, hpk]
      have hlen : (minq_pop cmp d (a :: t)).length = t.length := by
        rw [minq_pop_length cmp d (a :: t) (by simp)]
        simp
      have hlc : (a :: t).length = t.length + 1 := by simp
      have h2 := ih (minq_pop cmp d (a :: t)) (by rw [hlen]; omega)
      have h3 := minq_pop_perm cmp d (a :: t) (by simp)
      exact ((h2.trans h3).cons a)

theorem applyOps_heapInv {α : Type} [LinearOrder α] (d : α) (ops : List (MinqOp α)) :
    heapInv d (applyOps (gtCmp α) d ops) := by
  unfold applyOps
  have key : ∀ (l : List (MinqOp α)) (acc : List α), heapInv d acc →
      heapInv d (l.foldl
        (fun e op =>
          match op with
          | MinqOp.push v => minq_push (gtCmp α) d e v
          | MinqOp.pop => minq_pop (gtCmp α) d e) acc) := by
    intro l
    induction l with
    | nil => intro acc h; exact h
    | cons op t ih =>
      intro acc h
      rw [List.foldl_cons]
      cases op with
      | push v => exact ih _ (minq_push_heapInv d acc v h)
      | pop => exact ih _ (minq_pop_heapInv d acc h)
  apply key
  intro j hj0 hjlen
  simp at hjlen

/-- C1: for a strict total greater-than comparator, after any sequence
of minq_push/minq_pop operations the heap's pop sequence is sorted
ascending and is a permutation of the queue contents; two operation
sequences leaving permuted contents pop identical sequences
(independence of insertion order); minq_peek returns an enqueued
element that is no greater than every enqueued element; and minq_pop
on the empty queue is a no-op. -/
theorem C1_minqueue_pop_order {α : Type} [LinearOrder α] (d : α)
    (ops ops2 : List (MinqOp α)) :
    List.Sorted (· ≤ ·) (popAllL (gtCmp α) d (applyOps (gtCmp α) d ops)) ∧
    List.Perm (popAllL (gtCmp α) d (applyOps (gtCmp α) d ops)) (applyOps (gtCmp α) d ops) ∧
    (List.Perm (applyOps (gtCmp α) d ops) (applyOps (gtCmp α) d ops2) →
      popAllL (gtCmp α) d (applyOps (gtCmp α) d ops)
        = popAllL (gtCmp α) d (applyOps (gtCmp α) d ops2)) ∧
    (∀ x, x ∈ applyOps (gtCmp α) d ops → ∀ m,
      minq_peek (applyOps (gtCmp α) d ops) = some m →
        m ≤ x ∧ m ∈ applyOps (gtCmp α) d ops) ∧
    minq_pop (gtCmp α) d ([] : List α) = [] := by
  refine ⟨?_, ?_, ?_, ?_, ?_⟩
  · exact popAll_sorted d _ _ (applyOps_heapInv d ops)
  · exact popAll_perm _ d _ _ (le_refl _)
  · intro hperm
    have hp := ((popAll_perm (gtCmp α) d _ _ (le_refl _)).trans hperm).trans
      (popAll_perm (gtCmp α) d _ _ (le_refl _)).symm
    exact List.eq_of_perm_of_sorted hp (popAll_sorted d _ _ (applyOps_heapInv d ops))
      (popAll_sorted d _ _ (applyOps_heapInv d ops2))
  · intro x hx m hm
    obtain ⟨hroot, hmem⟩ := minq_peek_root d _ m hm
    constructor
    · rw [← hroot]
      exact heapInv_root_le_mem d _ (applyOps_heapInv d ops) x hx
    · exact hmem
  · rfl

/-- Witness for C1_minqueue_pop_order at concrete operation sequences
over the naturals. -/
theorem C1_minqueue_pop_order_witness :
    popAllL (gtCmp Nat) 0
        (applyOps (gtCmp Nat) 0 [MinqOp.push 3, MinqOp.push 1, MinqOp.pop, MinqOp.push 2])
      = popAllL (gtCmp Nat) 0 (applyOps (gtCmp Nat) 0 [MinqOp.push 2, MinqOp.push 3]) ∧
    (2 : Nat) ≤ 3 :=
  ⟨(C1_minqueue_pop_order 0 [MinqOp.push 3, MinqOp.push 1, MinqOp.pop, MinqOp.push 2]
      [MinqOp.push 2, MinqOp.push 3]).2.2.1 (by decide),
   ((C1_minqueue_pop_order 0 [MinqOp.push 3, MinqOp.push 1, MinqOp.pop, MinqOp.push 2]
      [MinqOp.push 2, MinqOp.push 3]).2.2.2.1 3 (by decide) 2 (by decide)).1⟩
